import Mathlib

set_option maxHeartbeats 1000000
set_option maxRecDepth 100000

/-!
# Verification of the CounterAnimator number-formatting and animation core

A shallow embedding of `src/counterAnimator.js`.  Numeric values are modelled
as rationals (`ℚ`) for the parsing/formatting pipeline, which only ever
produces decimal fractions, and as reals (`ℝ`) for the easing curves and the
animation frame computation.  JavaScript's non-finite doubles (`NaN`,
`±Infinity`) are modelled by the wrapper type `JSNum`, whose non-finite cases
follow the ECMAScript semantics of the builtins the source calls
(`toFixed`, `Math.round`, `Number.prototype.toString`, `Math.abs`).
-/

/- ---------------------------------------------------------------------
   Shared string/number helpers (semantics of the JS builtins used)
   --------------------------------------------------------------------- -/

/-- Value of a list of decimal digit characters, most significant first
(the value `parseFloat` assigns to a digit run). -/
def digitsToNat (l : List Char) : ℕ :=
  l.foldl (fun n c => 10 * n + (c.toNat - '0'.toNat)) 0

/-- `String.prototype.padEnd(n, c)`. -/
def padEnd (s : String) (n : ℕ) (c : Char) : String :=
  s ++ String.mk (List.replicate (n - s.length) c)

/-- The unsigned fragment of `parseFloat`: a maximal digit run, optionally
followed by a dot and a second maximal digit run; `none` models `NaN`. -/
def parseUnsignedFloat (l : List Char) : Option ℚ :=
  let intDigits := l.takeWhile Char.isDigit
  let rest := l.dropWhile Char.isDigit
  if rest.head? = some '.' then
    let fracDigits := rest.tail.takeWhile Char.isDigit
    if intDigits.isEmpty && fracDigits.isEmpty then none
    else some ((digitsToNat intDigits : ℚ) + (digitsToNat fracDigits : ℚ) / 10 ^ fracDigits.length)
  else if intDigits.isEmpty then none else some ((digitsToNat intDigits : ℚ))

/-- `parseFloat` on a character list: optional leading minus sign, then the
unsigned fragment; `none` models `NaN`. -/
def jsParseFloatL (l : List Char) : Option ℚ :=
  if l.head? = some '-' then (parseUnsignedFloat l.tail).map (fun q => -q)
  else parseUnsignedFloat l

/-- `parseFloat` on a string. -/
def jsParseFloat (s : String) : Option ℚ :=
  jsParseFloatL s.data

/-- Index of the first occurrence of `c` in a list (list length if absent);
used to model `String.prototype.lastIndexOf` via the reversed list. -/
def revIndexOf (c : Char) : List Char → ℕ
  | [] => 0
  | a :: rest => if a = c then 0 else revIndexOf c rest + 1

/-- `text.lastIndexOf(c)` : index of the last occurrence, `-1` if absent. -/
def lastIndexOfZ (c : Char) (cs : List Char) : ℤ :=
  (cs.length : ℤ) - 1 - (revIndexOf c cs.reverse : ℤ)

/- ---------------------------------------------------------------------
   Data model: defaults, number formats, animator configuration
   --------------------------------------------------------------------- -/

/-- The `abbreviations` table of a number format (`{thousand, million,
billion, trillion}`). -/
structure Abbreviations where
  thousand : String
  million : String
  billion : String
  trillion : String

/-- The `numberFormat` configuration object. -/
structure NumberFormat where
  style : String
  locale : String
  thousandsSeparator : String
  decimalSeparator : String
  decimals : ℕ
  showDecimals : Bool
  abbreviate : Bool
  abbreviations : Abbreviations
  inputDecimalSeparator : String
  smartDetection : Bool

/-- The default `numberFormat` from the constructor's `this.defaults`. -/
def defaultNumberFormat : NumberFormat where
  style := "standard"
  locale := "pt-AO"
  thousandsSeparator := " "
  decimalSeparator := ","
  decimals := 0
  showDecimals := false
  abbreviate := false
  abbreviations := { thousand := "K", million := "M", billion := "B", trillion := "T" }
  inputDecimalSeparator := "auto"
  smartDetection := true

/-- The top-level animator configuration (`this.defaults` / `this.config`).
DOM-only fields (callbacks, observer options) are outside the model. -/
structure AnimatorConfig where
  selector : String
  duration : ℚ
  effect : String
  startValue : ℚ
  delay : ℚ
  formatNumber : Bool
  numberFormat : NumberFormat
  separator : String
  autoStart : Bool
  triggerOnce : Bool

/-- `this.defaults` of the constructor. -/
def animatorDefaults : AnimatorConfig where
  selector := ".counter"
  duration := 2000
  effect := "easeOutCubic"
  startValue := 0
  delay := 0
  formatNumber := true
  numberFormat := defaultNumberFormat
  separator := ","
  autoStart := true
  triggerOnce := true

/-- Caller-supplied constructor options; `none` means the key is absent. -/
structure AnimatorOptions where
  selector : Option String := none
  duration : Option ℚ := none
  effect : Option String := none
  startValue : Option ℚ := none
  delay : Option ℚ := none
  formatNumber : Option Bool := none
  numberFormat : Option NumberFormat := none
  separator : Option String := none
  autoStart : Option Bool := none
  triggerOnce : Option Bool := none

/-- The constructor's configuration merge
`this.config = { ...this.defaults, ...options }`: a shallow spread, each
present option replacing the corresponding default wholesale.  The source
constructor performs no validation of any kind. -/
def constructorConfig (options : AnimatorOptions) : AnimatorConfig where
  selector := options.selector.getD animatorDefaults.selector
  duration := options.duration.getD animatorDefaults.duration
  effect := options.effect.getD animatorDefaults.effect
  startValue := options.startValue.getD animatorDefaults.startValue
  delay := options.delay.getD animatorDefaults.delay
  formatNumber := options.formatNumber.getD animatorDefaults.formatNumber
  numberFormat := options.numberFormat.getD animatorDefaults.numberFormat
  separator := options.separator.getD animatorDefaults.separator
  autoStart := options.autoStart.getD animatorDefaults.autoStart
  triggerOnce := options.triggerOnce.getD animatorDefaults.triggerOnce

/- ---------------------------------------------------------------------
   Easing functions and the animation frame
   --------------------------------------------------------------------- -/

/-- `this.easingFunctions`: the table assigned in the constructor.  Note the
table has no `easeOutCubic` entry. -/
noncomputable def easingFunctions : List (String × (ℝ → ℝ)) :=
  [("linear", fun t => t),
   ("slow", fun t => t ^ (4 : ℕ)),
   ("fast", fun t => 1 - (1 - t) ^ ((0.3 : ℝ))),
   ("bounce", fun t =>
      if t < 1 / 2.75 then 7.5625 * t * t
      else if t < 2 / 2.75 then 7.5625 * (t - 1.5 / 2.75) * (t - 1.5 / 2.75) + 0.75
      else if t < 2.5 / 2.75 then 7.5625 * (t - 2.25 / 2.75) * (t - 2.25 / 2.75) + 0.9375
      else 7.5625 * (t - 2.625 / 2.75) * (t - 2.625 / 2.75) + 0.984375),
   ("elastic", fun t =>
      if t = 0 then 0
      else if t = 1 then 1
      else if t < 0.5 then
        -((2 : ℝ) ^ ((20 * t - 10 : ℝ)) * Real.sin ((20 * t - 11.125) * (2 * Real.pi / 3))) / 2
      else ((2 : ℝ) ^ ((-20 * t + 10 : ℝ)) * Real.sin ((20 * t - 11.125) * (2 * Real.pi / 3))) / 2 + 1),
   ("steps", fun t => (⌊t * 5⌋ : ℝ) / 5),
   ("smooth", fun t => if t < 0.5 then 2 * t * t else 1 - (-2 * t + 2) ^ (2 : ℕ) / 2),
   ("dramatic", fun t => if t < 0.8 then 0 else (t - 0.8) / 0.2),
   ("wave", fun t => Real.sin (t * Real.pi * 2) * 0.1 + t)]

/-- `this.easingFunctions[config.effect] || this.easingFunctions.easeOutCubic`
in `animateElement`: the property lookup with its truthiness fallback
(`none` models an `undefined` easing function). -/
noncomputable def selectedEasingFunction (effect : String) : Option (ℝ → ℝ) :=
  (easingFunctions.lookup effect).orElse (fun _ => easingFunctions.lookup "easeOutCubic")

/-- The numeric value that a frame of the `animate` closure hands to
`formatValue` for display: for `progress < 1` the eased interpolation
`startValue + (targetValue - startValue) * easedProgress`, and on the final
frame (`progress = 1`, the last `textContent` write of that frame) the
verbatim `targetValue` of the "Ensure accurate final value" branch. -/
noncomputable def frameDisplayValue (easingFunction : ℝ → ℝ)
    (startValue targetValue duration elapsed : ℝ) : ℝ :=
  let progress := min (elapsed / duration) 1
  let easedProgress := easingFunction progress
  let currentValue := startValue + (targetValue - startValue) * easedProgress
  if progress < 1 then currentValue else targetValue

/- ---------------------------------------------------------------------
   Number parsing (`smartNumberDetection` and its branch parsers)
   --------------------------------------------------------------------- -/

/-- `parseWithCommaSeparator`: decides whether a comma is a decimal point or
a thousands mark.  `parts = text.split(',')` is modelled, for the
`commaCount === 1` branch where it is used, by splitting at the comma. -/
def parseWithCommaSeparator (text : String) : Option ℚ :=
  let cs := text.data
  let commaCount := cs.count ','
  if commaCount = 1 then
    let beforeComma := cs.takeWhile (· != ',')
    let afterComma := (cs.dropWhile (· != ',')).tail
    if afterComma.length ≤ 2 ∧ beforeComma.length ≤ 3 then
      jsParseFloatL (beforeComma ++ '.' :: afterComma)
    else if afterComma.length = 3 then
      jsParseFloatL (beforeComma ++ afterComma)
    else if afterComma.length ≤ 2 then
      jsParseFloatL (beforeComma ++ '.' :: afterComma)
    else
      jsParseFloatL (cs.filter (· != ','))
  else
    jsParseFloatL (cs.filter (· != ','))

/-- `parseWithDotSeparator`.  The multiple-dot branch splits at
`lastIndexOf('.')`; that split is modelled through the reversed list
(`substring(0, i)` / `substring(i + 1)`), which also reproduces the
JavaScript behaviour when no dot is present (`i = -1`: empty head, whole
string tail). -/
def parseWithDotSeparator (text : String) : Option ℚ :=
  let cs := text.data
  let dotCount := cs.count '.'
  if dotCount = 1 then
    let beforeDot := cs.takeWhile (· != '.')
    let afterDot := (cs.dropWhile (· != '.')).tail
    if afterDot.length ≤ 2 ∧ beforeDot.length ≤ 3 then
      jsParseFloatL cs
    else if afterDot.length = 3 then
      jsParseFloatL (beforeDot ++ afterDot)
    else
      jsParseFloatL cs
  else
    let revCs := cs.reverse
    let afterLastDot := (revCs.takeWhile (· != '.')).reverse
    let beforeLastDot := (((revCs.dropWhile (· != '.')).tail).reverse).filter (· != '.')
    if afterLastDot.length ≤ 2 then
      jsParseFloatL (beforeLastDot ++ '.' :: afterLastDot)
    else
      jsParseFloatL (cs.filter (· != '.'))

/-- `parseWithMixedSeparators`: whichever separator occurs last is the
decimal separator; all occurrences of the other one are removed from the
integer part and the string is reparsed. -/
def parseWithMixedSeparators (text : String) : Option ℚ :=
  let cs := text.data
  let lastCommaIndex := lastIndexOfZ ',' cs
  let lastDotIndex := lastIndexOfZ '.' cs
  if lastDotIndex < lastCommaIndex then
    let beforeComma := (cs.take lastCommaIndex.toNat).filter (· != '.')
    let afterComma := cs.drop (lastCommaIndex.toNat + 1)
    jsParseFloatL (beforeComma ++ '.' :: afterComma)
  else
    let beforeDot := (cs.take lastDotIndex.toNat).filter (· != ',')
    let afterDot := cs.drop (lastDotIndex.toNat + 1)
    jsParseFloatL (beforeDot ++ '.' :: afterDot)

/-- `smartNumberDetection`: strips everything but digits, `.`, `,`, `-`, then
branches on which separators are present.  `parseFloat(cleanText) || 0` is
modelled by defaulting the `NaN` outcome to `0`. -/
def smartNumberDetection (text : String) : Option ℚ :=
  let cleanText : List Char := text.data.filter (fun c => c.isDigit || c == '.' || c == ',' || c == '-')
  if ¬ cleanText.any (fun c => c == '.' || c == ',') then
    some ((jsParseFloatL cleanText).getD 0)
  else
    let commaCount := cleanText.count ','
    let dotCount := cleanText.count '.'
    if 0 < commaCount ∧ dotCount = 0 then
      parseWithCommaSeparator (String.mk cleanText)
    else if 0 < dotCount ∧ commaCount = 0 then
      parseWithDotSeparator (String.mk cleanText)
    else if 0 < commaCount ∧ 0 < dotCount then
      parseWithMixedSeparators (String.mk cleanText)
    else
      some 0

/- ---------------------------------------------------------------------
   Number formatting (`formatValue`, `abbreviateNumber`,
   `formatCustomNumber`, `addThousandsSeparator`)
   --------------------------------------------------------------------- -/

/-- Word characters of the grouping regex `\B(?=(\d{3})+(?!\d))`. -/
def isWordChar (c : Char) : Bool :=
  c.isAlphanum || c == '_'

/-- Whether the regex `\B(?=(\d{3})+(?!\d))` matches at position `i` of `l`:
`i` is not at a word boundary and is followed by a positive multiple of
three digits with no digit after them. -/
def insertPos (l : List Char) (i : ℕ) : Bool :=
  decide (1 ≤ i) &&
  (match l.get? (i - 1) with
   | some c => isWordChar c
   | none => false) &&
  (let run := ((l.drop i).takeWhile Char.isDigit).length
   decide (3 ≤ run ∧ run % 3 = 0))

/-- `cleanNumber.replace(/\B(?=(\d{3})+(?!\d))/g, separator)`:
the separator is inserted before every position the regex matches. -/
def addThousandsSeparatorCore (l : List Char) (separator : String) : String :=
  String.join (l.enum.map (fun p =>
    (if insertPos l p.1 then separator else "") ++ String.mk [p.2]))

/-- `addThousandsSeparator`: strips a leading minus sign, groups the digits,
and reattaches the sign. -/
def addThousandsSeparator (numberString : String) (separator : String) : String :=
  if numberString.data.head? = some '-' then
    "-" ++ addThousandsSeparatorCore numberString.data.tail separator
  else
    addThousandsSeparatorCore numberString.data separator

/-- Strips trailing fractional zero digits from the scaled magnitude `m`
with `e` decimal places (ECMAScript `toString` prints no trailing zeros). -/
def stripTrailingZeros : ℕ → ℕ → ℕ × ℕ
  | m, 0 => (m, 0)
  | m, e + 1 => if m % 10 = 0 then stripTrailingZeros (m / 10) e else (m, e + 1)

/-- `rounded.toString().split('.')` for the exact value `n / 10 ^ e`:
the integer part (with sign) and the fractional part (`none` when the
decimal expansion has no fractional digits, i.e. `split` yields one piece). -/
def decimalToString (n : ℤ) (e : ℕ) : String × Option String :=
  let p := stripTrailingZeros n.natAbs e
  let m := p.1
  let e2 := p.2
  let sign := if n < 0 then "-" else ""
  if e2 = 0 then
    (sign ++ String.mk (Nat.toDigits 10 m), none)
  else
    (sign ++ String.mk (Nat.toDigits 10 (m / 10 ^ e2)),
     some (String.mk (List.replicate (e2 - (Nat.toDigits 10 (m % 10 ^ e2)).length) '0' ++
       Nat.toDigits 10 (m % 10 ^ e2))))

/-- The rounding step of `formatCustomNumber`, as the pair `(n, e)` with the
rounded value equal to `n / 10 ^ e` exactly:
`Number(value.toFixed(decimals))` when `decimals > 0 || showDecimals`
(ECMAScript `toFixed` rounds to nearest, ties away from the smaller
candidate, i.e. `⌊x * 10 ^ d + 1/2⌋`), else `Math.round(value)`
(`⌊x + 1/2⌋`). -/
def roundIntExp (format : NumberFormat) (value : ℚ) : ℤ × ℕ :=
  if 0 < format.decimals ∨ format.showDecimals = true then
    (⌊value * 10 ^ format.decimals + 1 / 2⌋, format.decimals)
  else
    (⌊value + 1 / 2⌋, 0)

/-- The value the spec calls "the already-rounded value": the rational the
rounding step of `formatCustomNumber` produces. -/
def roundForFormat (format : NumberFormat) (value : ℚ) : ℚ :=
  ((roundIntExp format value).1 : ℚ) / 10 ^ (roundIntExp format value).2

/-- String assembly of `formatCustomNumber` after rounding: split into
integer/decimal parts, group the integer part when `|rounded| ≥ 1000` and a
thousands separator is configured, then append the decimal separator and the
zero-padded fractional part when `showDecimals || (decimals > 0 &&
decimalPart)`. -/
def renderRounded (format : NumberFormat) (n : ℤ) (e : ℕ) : String :=
  let parts := decimalToString n e
  let integerPart0 := parts.1
  let decimalPart := parts.2
  let integerPart :=
    if (1000 : ℚ) ≤ |(n : ℚ) / 10 ^ e| ∧ format.thousandsSeparator ≠ "" then
      addThousandsSeparator integerPart0 format.thousandsSeparator
    else integerPart0
  if format.showDecimals = true ∨ (0 < format.decimals ∧ decimalPart.isSome) then
    integerPart ++ format.decimalSeparator ++
      padEnd (decimalPart.getD (String.mk (List.replicate format.decimals '0'))) format.decimals '0'
  else
    integerPart

/-- `formatCustomNumber`. -/
def formatCustomNumber (value : ℚ) (format : NumberFormat) : String :=
  let ne := roundIntExp format value
  renderRounded format ne.1 ne.2

/-- `abbreviateNumber`: selects the magnitude tier by `Math.abs(value)`,
divides the (signed) `value` by the tier magnitude, renders it with
`{...format, showDecimals: true, decimals: 1}` and prepends `sign`. -/
def abbreviateNumber (value : ℚ) (format : NumberFormat) : String :=
  let avalue := |value|
  let sign := if value < 0 then "-" else ""
  if 1000000000000 ≤ avalue then
    sign ++ formatCustomNumber (value / 1000000000000)
      { format with showDecimals := true, decimals := 1 } ++ format.abbreviations.trillion
  else if 1000000000 ≤ avalue then
    sign ++ formatCustomNumber (value / 1000000000)
      { format with showDecimals := true, decimals := 1 } ++ format.abbreviations.billion
  else if 1000000 ≤ avalue then
    sign ++ formatCustomNumber (value / 1000000)
      { format with showDecimals := true, decimals := 1 } ++ format.abbreviations.million
  else if 1000 ≤ avalue then
    sign ++ formatCustomNumber (value / 1000)
      { format with showDecimals := true, decimals := 1 } ++ format.abbreviations.thousand
  else
    formatCustomNumber value format

/-- `Math.round(value).toString()`. -/
def jsIntToString (n : ℤ) : String :=
  (if n < 0 then "-" else "") ++ String.mk (Nat.toDigits 10 n.natAbs)

/-- `formatValue`. -/
def formatValue (value : ℚ) (config : AnimatorConfig) : String :=
  let format := config.numberFormat
  if config.formatNumber = false then
    jsIntToString ⌊value + 1 / 2⌋
  else if format.abbreviate = true then
    abbreviateNumber value format
  else
    formatCustomNumber value format

/- ---------------------------------------------------------------------
   JavaScript non-finite numbers
   --------------------------------------------------------------------- -/

/-- A JavaScript number: finite (modelled exactly as a rational) or one of
the non-finite doubles. -/
inductive JSNum where
  | nan
  | posInf
  | negInf
  | fin (q : ℚ)

/-- `formatCustomNumber` on a JavaScript number.  On a finite input this is
`formatCustomNumber`.  On a non-finite input the source's builtins behave as
follows (ECMAScript): `toFixed`/`Math.round` return the value unchanged
(`Number(v.toFixed(d))` is again `v`), `toString` yields `"NaN"`,
`"Infinity"` or `"-Infinity"` (no `'.'`, so `decimalPart` is `undefined`),
`Math.abs(NaN) >= 1000` is `false` while `Math.abs(±Infinity) >= 1000` is
`true` (so the infinite strings go through the grouping regex, which
inserts nothing into a digit-free string), and the decimal branch appends
`'0'.repeat(decimals)` when `showDecimals` is set. -/
def formatCustomNumberJS (value : JSNum) (format : NumberFormat) : String :=
  match value with
  | .fin q => formatCustomNumber q format
  | .nan =>
    if format.showDecimals = true then
      "NaN" ++ format.decimalSeparator ++
        padEnd (String.mk (List.replicate format.decimals '0')) format.decimals '0'
    else "NaN"
  | .posInf =>
    let integerPart :=
      if format.thousandsSeparator ≠ "" then
        addThousandsSeparator "Infinity" format.thousandsSeparator
      else "Infinity"
    if format.showDecimals = true then
      integerPart ++ format.decimalSeparator ++
        padEnd (String.mk (List.replicate format.decimals '0')) format.decimals '0'
    else integerPart
  | .negInf =>
    let integerPart :=
      if format.thousandsSeparator ≠ "" then
        addThousandsSeparator "-Infinity" format.thousandsSeparator
      else "-Infinity"
    if format.showDecimals = true then
      integerPart ++ format.decimalSeparator ++
        padEnd (String.mk (List.replicate format.decimals '0')) format.decimals '0'
    else integerPart

/-- `abbreviateNumber` on a JavaScript number: `Math.abs(NaN) >= t` is
`false` for every tier, while `Math.abs(±Infinity)` passes the trillion
tier and `±Infinity / 1e12 = ±Infinity`. -/
def abbreviateNumberJS (value : JSNum) (format : NumberFormat) : String :=
  match value with
  | .fin q => abbreviateNumber q format
  | .nan => formatCustomNumberJS .nan format
  | .posInf =>
    "" ++ formatCustomNumberJS .posInf { format with showDecimals := true, decimals := 1 } ++
      format.abbreviations.trillion
  | .negInf =>
    "-" ++ formatCustomNumberJS .negInf { format with showDecimals := true, decimals := 1 } ++
      format.abbreviations.trillion

/-- `formatValue` on a JavaScript number (`Math.round` keeps non-finite
values, whose `toString` is their non-finite string). -/
def formatValueJS (value : JSNum) (config : AnimatorConfig) : String :=
  let format := config.numberFormat
  if config.formatNumber = false then
    match value with
    | .fin q => jsIntToString ⌊q + 1 / 2⌋
    | .nan => "NaN"
    | .posInf => "Infinity"
    | .negInf => "-Infinity"
  else if format.abbreviate = true then
    abbreviateNumberJS value format
  else
    formatCustomNumberJS value format

/- ---------------------------------------------------------------------
   Concrete formats used by the claims
   --------------------------------------------------------------------- -/

/-- The `pt-ao` entry of `getPresetFormats()` (the preset literal fixes the
five formatting fields; the remaining fields keep the constructor's default
values). -/
def ptAoPreset : NumberFormat :=
  { defaultNumberFormat with
    thousandsSeparator := " "
    decimalSeparator := ","
    decimals := 0
    showDecimals := false
    abbreviate := false }

/-- The `abbreviated` entry of `getPresetFormats()` (same completion with
the default `K`/`M`/`B`/`T` abbreviation table, which the preset literal
does not override). -/
def abbreviatedPreset : NumberFormat :=
  { defaultNumberFormat with
    thousandsSeparator := " "
    decimalSeparator := ","
    decimals := 1
    showDecimals := false
    abbreviate := true }

/- ---------------------------------------------------------------------
   Helper lemmas
   --------------------------------------------------------------------- -/

theorem takeWhile_append_of_all {p : Char → Bool} {a : List Char}
    (ha : ∀ c ∈ a, p c = true) {c : Char} (hc : p c = false) (b : List Char) :
    (a ++ c :: b).takeWhile p = a := by
  induction a with
  | nil => simp [List.takeWhile_cons, hc]
  | cons x xs ih =>
    have hx : p x = true := ha x (by simp)
    simp [List.takeWhile_cons, hx, ih (fun d hd => ha d (by simp [hd]))]

theorem dropWhile_append_of_all {p : Char → Bool} {a : List Char}
    (ha : ∀ c ∈ a, p c = true) {c : Char} (hc : p c = false) (b : List Char) :
    (a ++ c :: b).dropWhile p = c :: b := by
  induction a with
  | nil => simp [List.dropWhile_cons, hc]
  | cons x xs ih =>
    have hx : p x = true := ha x (by simp)
    simp only [List.cons_append, List.dropWhile_cons, hx]
    exact ih (fun d hd => ha d (by simp [hd]))

theorem takeWhile_of_all {p : Char → Bool} {a : List Char}
    (ha : ∀ c ∈ a, p c = true) : a.takeWhile p = a := by
  induction a with
  | nil => rfl
  | cons x xs ih =>
    have hx : p x = true := ha x (by simp)
    simp [List.takeWhile_cons, hx, ih (fun d hd => ha d (by simp [hd]))]

theorem dropWhile_of_all {p : Char → Bool} {a : List Char}
    (ha : ∀ c ∈ a, p c = true) : a.dropWhile p = [] := by
  induction a with
  | nil => rfl
  | cons x xs ih =>
    have hx : p x = true := ha x (by simp)
    simp only [List.dropWhile_cons, hx]
    exact ih (fun d hd => ha d (by simp [hd]))

theorem take_append_len (p t : List Char) : (p ++ t).take p.length = p := by
  induction p with
  | nil => rfl
  | cons x xs ih => simp [ih]

theorem drop_append_len (p t : List Char) : (p ++ t).drop p.length = t := by
  induction p with
  | nil => rfl
  | cons x xs ih => simp [ih]

theorem isDigit_ne_of {c d : Char} (hc : c.isDigit = true) (hd : d.isDigit = false)
    : c ≠ d := by
  intro h
  rw [h, hd] at hc
  exact Bool.noConfusion hc

/-- `parseFloat` of a nonempty digit run. -/
theorem parseUnsignedFloat_digits {a : List Char}
    (ha : ∀ c ∈ a, c.isDigit = true) (hne : a ≠ []) :
    parseUnsignedFloat a = some ((digitsToNat a : ℚ)) := by
  unfold parseUnsignedFloat
  rw [takeWhile_of_all ha, dropWhile_of_all ha]
  simp [List.isEmpty_iff, hne]

/-- `parseFloat` of `"<digits>.<digits>"` with at least one digit somewhere. -/
theorem parseUnsignedFloat_digits_dot {a b : List Char}
    (ha : ∀ c ∈ a, c.isDigit = true) (hb : ∀ c ∈ b, c.isDigit = true)
    (hne : a ≠ [] ∨ b ≠ []) :
    parseUnsignedFloat (a ++ '.' :: b) =
      some ((digitsToNat a : ℚ) + (digitsToNat b : ℚ) / 10 ^ b.length) := by
  unfold parseUnsignedFloat
  rw [takeWhile_append_of_all ha (by decide) b, dropWhile_append_of_all ha (by decide) b]
  simp only [List.head?_cons, List.tail_cons, takeWhile_of_all hb]
  have : (a.isEmpty && b.isEmpty) = false := by
    rcases hne with h | h
    · simp [List.isEmpty_iff, h]
    · simp [List.isEmpty_iff, h]
  simp [this]

theorem head_not_minus_of_digits {a : List Char} (ha : ∀ c ∈ a, c.isDigit = true)
    (t : List Char) : (a ++ t).head? ≠ some '-' ∨ a = [] := by
  cases a with
  | nil => exact Or.inr rfl
  | cons x xs =>
    left
    have hx : x.isDigit = true := ha x (by simp)
    simp only [List.cons_append, List.head?_cons, ne_eq, Option.some.injEq]
    intro h
    rw [h] at hx
    exact absurd hx (by decide)

/-- `jsParseFloatL` of a nonempty digit run. -/
theorem jsParseFloatL_digits {a : List Char}
    (ha : ∀ c ∈ a, c.isDigit = true) (hne : a ≠ []) :
    jsParseFloatL a = some ((digitsToNat a : ℚ)) := by
  unfold jsParseFloatL
  cases a with
  | nil => exact absurd rfl hne
  | cons x xs =>
    have hx : x.isDigit = true := ha x (by simp)
    have hxm : x ≠ '-' := isDigit_ne_of hx (by decide)
    rw [if_neg (by simpa using hxm)]
    exact parseUnsignedFloat_digits ha hne

/-- `jsParseFloatL` of `"<digits>.<digits>"`. -/
theorem jsParseFloatL_digits_dot {a b : List Char}
    (ha : ∀ c ∈ a, c.isDigit = true) (hb : ∀ c ∈ b, c.isDigit = true)
    (hne : a ≠ [] ∨ b ≠ []) :
    jsParseFloatL (a ++ '.' :: b) =
      some ((digitsToNat a : ℚ) + (digitsToNat b : ℚ) / 10 ^ b.length) := by
  unfold jsParseFloatL
  cases a with
  | nil =>
    rw [if_neg (by simp)]
    exact parseUnsignedFloat_digits_dot ha hb hne
  | cons x xs =>
    have hx : x.isDigit = true := ha x (by simp)
    have hxm : x ≠ '-' := isDigit_ne_of hx (by decide)
    rw [if_neg (by simpa using hxm)]
    exact parseUnsignedFloat_digits_dot ha hb hne

theorem count_eq_zero_of_all_ne {c : Char} {a : List Char}
    (ha : ∀ d ∈ a, d ≠ c) : a.count c = 0 := by
  rw [List.count_eq_zero]
  intro h
  exact ha c h rfl

/- ---------------------------------------------------------------------
   C1 - easing fallback
   --------------------------------------------------------------------- -/

/-- C1.  The claim says every effect identifier resolves to a defined,
callable easing curve, with unrecognized identifiers (including the default
configuration's `easeOutCubic`) falling back to a defined cubic ease-out
curve.  The code's fallback `this.easingFunctions.easeOutCubic` names an
entry that does not exist in the table, so for the declared default effect
the selected easing function is `undefined` (`none`) and the first frame of
`animateElement` applies an undefined function. -/
theorem easeOutCubic_fallback_undefined :
    selectedEasingFunction "easeOutCubic" = none := by
  rfl

/- ---------------------------------------------------------------------
   C2 - terminal exactness of the final frame
   --------------------------------------------------------------------- -/

/-- C2.  For every easing curve (including ones that overshoot `[0, 1]` or
satisfy `easing 1 ≠ 1`) and every configuration with positive duration, the
frame at or beyond `durationMs` displays the verbatim `targetValue`, not the
eased interpolation `startValue + (targetValue - startValue) * easing 1`. -/
theorem final_frame_displays_target (easingFunction : ℝ → ℝ)
    (startValue targetValue duration elapsed : ℝ)
    (hd : 0 < duration) (he : duration ≤ elapsed) :
    frameDisplayValue easingFunction startValue targetValue duration elapsed
      = targetValue := by
  unfold frameDisplayValue
  have h1 : (1 : ℝ) ≤ elapsed / duration := (one_le_div hd).mpr he
  have hp : min (elapsed / duration) 1 = 1 := min_eq_right h1
  simp [hp]

/-- Witness for C2: the overshooting `wave` curve with `start = 0`,
`target = 100`, `duration = 1000`, evaluated at `elapsed = 1000`. -/
theorem final_frame_displays_target_witness :
    (0 : ℝ) < 1000 ∧ (1000 : ℝ) ≤ 1000 ∧
      frameDisplayValue (fun t => Real.sin (t * Real.pi * 2) * 0.1 + t) 0 100 1000 1000
        = 100 :=
  ⟨by norm_num, by norm_num,
    final_frame_displays_target (fun t => Real.sin (t * Real.pi * 2) * 0.1 + t)
      0 100 1000 1000 (by norm_num) (by norm_num)⟩

/- ---------------------------------------------------------------------
   C3 - sign handling in abbreviateNumber
   --------------------------------------------------------------------- -/

/-- C3.  The claim (and the source's own documentation, "Preserves negative
signs and applies proper formatting") says the abbreviated rendering divides
`abs(value)` by the tier magnitude and prepends `-` exactly once, so `-1500`
renders as `"-1,5K"`.  The code divides the signed `value` instead, so the
quotient `-1.5` renders with its own minus sign and the separately prepended
`sign` produces a doubled `"--1,5K"`. -/
theorem abbreviate_negative_doubles_sign :
    abbreviateNumber (-1500) abbreviatedPreset = "--1,5K" := by
  with_unfolding_all decide

/- ---------------------------------------------------------------------
   C4 - non-finite rendering
   --------------------------------------------------------------------- -/

/-- Counterexample to C4: under the `pt-ao` preset the code renders `NaN` as
`"NaN"`, not as `"0"` — no branch of the formatting pipeline checks
finiteness. -/
theorem nonfinite_renders_nan_not_zero :
    formatCustomNumberJS JSNum.nan ptAoPreset = "NaN" ∧
      formatValueJS JSNum.nan { animatorDefaults with numberFormat := ptAoPreset } = "NaN" ∧
      ("NaN" : String) ≠ "0" := by
  refine ⟨rfl, rfl, ?_⟩
  decide

/-- C4 as amended: rendering a non-finite value does not produce `"0"`; the
JavaScript string of the value propagates through the pipeline, e.g. under
the `pt-ao` preset `NaN` renders as `"NaN"`, `+Infinity` as `"Infinity"`,
and `-Infinity` as `"-Infinity"`. -/
theorem nonfinite_renders_js_string :
    formatCustomNumberJS JSNum.nan ptAoPreset = "NaN" ∧
      formatCustomNumberJS JSNum.posInf ptAoPreset = "Infinity" ∧
      formatCustomNumberJS JSNum.negInf ptAoPreset = "-Infinity" :=
  ⟨rfl, rfl, rfl⟩

/- ---------------------------------------------------------------------
   C5 - separator disjointness at construction
   --------------------------------------------------------------------- -/

/-- A `numberFormat` whose thousands and decimal separators are both the
comma. -/
def equalSeparatorsFormat : NumberFormat :=
  { defaultNumberFormat with
    thousandsSeparator := ","
    decimalSeparator := ","
    decimals := 1
    showDecimals := true }

/-- Counterexample to C5: the constructor accepts a `numberFormat` whose
thousands separator equals its decimal separator (both the non-empty `","`)
without any failure, and the format is then used for rendering, producing
the ambiguous string `"1,234,5"` for `1234.5`. -/
theorem equal_separators_accepted_and_used :
    (constructorConfig { numberFormat := some equalSeparatorsFormat }).numberFormat
        = equalSeparatorsFormat ∧
      equalSeparatorsFormat.thousandsSeparator = "," ∧
      equalSeparatorsFormat.decimalSeparator = "," ∧
      formatValue (1234.5 : ℚ)
          (constructorConfig { numberFormat := some equalSeparatorsFormat })
        = "1,234,5" := by
  refine ⟨rfl, rfl, rfl, ?_⟩
  with_unfolding_all decide

/-- C5 as amended: constructing a configuration never fails — the
constructor performs no separator validation and accepts any supplied
`numberFormat` verbatim, including one with equal non-empty separators,
which is then used for rendering. -/
theorem constructor_accepts_any_format (format : NumberFormat) :
    (constructorConfig { numberFormat := some format }).numberFormat = format := by
  rfl

/-- Witness for the amended C5 at the equal-separator format. -/
theorem constructor_accepts_any_format_witness :
    (constructorConfig { numberFormat := some equalSeparatorsFormat }).numberFormat
      = equalSeparatorsFormat :=
  constructor_accepts_any_format equalSeparatorsFormat

/- ---------------------------------------------------------------------
   C9 - idempotence of rendering on its own rounding
   --------------------------------------------------------------------- -/

theorem floor_half_intCast_add (n : ℤ) : ⌊((n : ℚ) + 1 / 2)⌋ = n := by
  rw [Int.floor_int_add]
  norm_num

/-- Rounding the already-rounded value changes nothing. -/
theorem roundIntExp_roundForFormat (format : NumberFormat) (value : ℚ) :
    roundIntExp format (roundForFormat format value) = roundIntExp format value := by
  by_cases h : 0 < format.decimals ∨ format.showDecimals = true
  · simp only [roundForFormat, roundIntExp, if_pos h]
    have hne : ((10 : ℚ) ^ format.decimals) ≠ 0 := pow_ne_zero _ (by norm_num)
    rw [div_mul_cancel₀ _ hne, floor_half_intCast_add]
  · simp only [roundForFormat, roundIntExp, if_neg h]
    rw [pow_zero, div_one, floor_half_intCast_add]

/-- C9.  For every `NumberFormat` and every value, rendering the
already-rounded value (`roundForFormat`, i.e. the value rounded to
`decimals` places, or to the nearest integer when `decimals = 0` and
`showDecimals` is false) produces the identical string to rendering the
value directly. -/
theorem render_round_idempotent (format : NumberFormat) (value : ℚ) :
    formatCustomNumber (roundForFormat format value) format
      = formatCustomNumber value format := by
  unfold formatCustomNumber
  rw [roundIntExp_roundForFormat]

/-- Witness for C9 at `value = 1234.567` under the `currency`-style format
with two decimals: both renderings are evaluated and agree. -/
theorem render_round_idempotent_witness :
    formatCustomNumber
        (roundForFormat { defaultNumberFormat with decimals := 2, showDecimals := true } (1234.567 : ℚ))
        { defaultNumberFormat with decimals := 2, showDecimals := true }
      = formatCustomNumber (1234.567 : ℚ)
        { defaultNumberFormat with decimals := 2, showDecimals := true } ∧
    formatCustomNumber (1234.567 : ℚ)
        { defaultNumberFormat with decimals := 2, showDecimals := true } = "1 234,57" :=
  ⟨render_round_idempotent { defaultNumberFormat with decimals := 2, showDecimals := true } (1234.567 : ℚ),
   by with_unfolding_all decide⟩

/- ---------------------------------------------------------------------
   C10 - dangling decimal separator when showDecimals with 0 decimals
   --------------------------------------------------------------------- -/

theorem string_append_mk_nil (s : String) : s ++ String.mk [] = s := by
  cases s with
  | mk l =>
    show String.mk (l ++ []) = String.mk l
    rw [List.append_nil]

theorem decimalToString_exp_zero (n : ℤ) :
    decimalToString n 0 = ((if n < 0 then "-" else "") ++ String.mk (Nat.toDigits 10 n.natAbs), none) := by
  rfl

/-- C10.  With `showDecimals = true` and `decimals = 0`, rendering any
finite value appends the decimal separator followed by zero fractional
digits: the output is exactly the `showDecimals = false` rendering with the
decimal separator dangling at the end. -/
theorem showDecimals_zero_dangling_separator (value : ℚ) (format : NumberFormat)
    (hd : format.decimals = 0) (hs : format.showDecimals = true) :
    formatCustomNumber value format
      = formatCustomNumber value { format with showDecimals := false }
          ++ format.decimalSeparator := by
  have h1 : roundIntExp format value = (⌊value + 1 / 2⌋, 0) := by
    simp only [roundIntExp, hd, hs]
    norm_num
  have h2 : roundIntExp { format with showDecimals := false } value = (⌊value + 1 / 2⌋, 0) := by
    simp only [roundIntExp, hd]
    norm_num
  unfold formatCustomNumber
  rw [h1, h2]
  simp only [renderRounded, decimalToString_exp_zero, hd, hs, Option.isSome_none,
    Bool.false_eq_true, and_false, or_false, Nat.lt_irrefl, false_and, if_true, if_false,
    List.replicate, Option.getD_none]
  rw [padEnd]
  simp only [String.length, List.length_nil, Nat.zero_sub, List.replicate]
  exact string_append_mk_nil _

/- ---------------------------------------------------------------------
   C6 - comma heuristic
   --------------------------------------------------------------------- -/

theorem bne_of_isDigit {c sep : Char} (hc : c.isDigit = true) (hsep : sep.isDigit = false) :
    (c != sep) = true := by
  simp only [bne_iff_ne, ne_eq]
  exact isDigit_ne_of hc hsep

theorem count_sep_one {sep : Char} (hsep : sep.isDigit = false) {a b : List Char}
    (ha : ∀ c ∈ a, c.isDigit = true) (hb : ∀ c ∈ b, c.isDigit = true) :
    (a ++ sep :: b).count sep = 1 := by
  rw [List.count_append, List.count_cons_self]
  rw [count_eq_zero_of_all_ne (fun d hd => isDigit_ne_of (ha d hd) hsep),
    count_eq_zero_of_all_ne (fun d hd => isDigit_ne_of (hb d hd) hsep)]

theorem takeWhile_bne_sep {sep : Char} (hsep : sep.isDigit = false) {a : List Char}
    (ha : ∀ c ∈ a, c.isDigit = true) (b : List Char) :
    (a ++ sep :: b).takeWhile (· != sep) = a :=
  takeWhile_append_of_all (fun c hc => bne_of_isDigit (ha c hc) hsep) (by simp) b

theorem dropWhile_bne_sep_tail {sep : Char} (hsep : sep.isDigit = false) {a : List Char}
    (ha : ∀ c ∈ a, c.isDigit = true) (b : List Char) :
    ((a ++ sep :: b).dropWhile (· != sep)).tail = b := by
  rw [dropWhile_append_of_all (fun c hc => bne_of_isDigit (ha c hc) hsep) (by simp) b]
  rfl

theorem filter_bne_digits {sep : Char} (_hsep : sep.isDigit = false) {cs : List Char}
    (h : ∀ c ∈ cs, c.isDigit = true ∨ c = sep) :
    ∀ c ∈ cs.filter (· != sep), c.isDigit = true := by
  intro c hc
  rw [List.mem_filter] at hc
  rcases h c hc.1 with hd | he
  · exact hd
  · exact absurd hc.2 (by simp [he])

theorem smart_routes_commas {cs : List Char}
    (h : ∀ c ∈ cs, c.isDigit = true ∨ c = ',') (hc : ',' ∈ cs) :
    smartNumberDetection (String.mk cs) = parseWithCommaSeparator (String.mk cs) := by
  unfold smartNumberDetection
  have hclean : (String.mk cs).data.filter
      (fun c => c.isDigit || c == '.' || c == ',' || c == '-') = cs := by
    rw [List.filter_eq_self]
    intro c hcc
    rcases h c hcc with hd | he
    · simp [hd]
    · simp [he]
  rw [hclean]
  have hany : cs.any (fun c => c == '.' || c == ',') = true :=
    List.any_eq_true.mpr ⟨',', hc, by simp⟩
  rw [if_neg (by simp [hany])]
  have hdot : cs.count '.' = 0 := by
    refine count_eq_zero_of_all_ne (fun d hd => ?_)
    rcases h d hd with h1 | h2
    · exact isDigit_ne_of h1 (by decide)
    · rw [h2]; decide
  have hcomma : 0 < cs.count ',' := List.count_pos_iff.mpr hc
  rw [if_pos ⟨hcomma, hdot⟩]

/-- C6.  Under auto-detection, for comma-only inputs: with exactly one comma
(written `a ++ ',' :: b` with digit runs `a`, `b`), a 1-2-digit `b` with
`a` at most 3 digits makes the comma a decimal point; a 3-digit `b` makes it
a dropped thousands mark; with two or more commas every comma is dropped;
and concretely `parse("1,234") = 1234`, `parse("3,5") = 3.5`. -/
theorem comma_heuristic :
    (∀ a b : List Char, (∀ c ∈ a, c.isDigit = true) → (∀ c ∈ b, c.isDigit = true) →
      1 ≤ b.length → b.length ≤ 2 → a.length ≤ 3 →
      parseWithCommaSeparator (String.mk (a ++ ',' :: b))
        = some ((digitsToNat a : ℚ) + (digitsToNat b : ℚ) / 10 ^ b.length)) ∧
    (∀ a b : List Char, (∀ c ∈ a, c.isDigit = true) → (∀ c ∈ b, c.isDigit = true) →
      b.length = 3 →
      parseWithCommaSeparator (String.mk (a ++ ',' :: b))
        = some ((digitsToNat (a ++ b) : ℚ))) ∧
    (∀ cs : List Char, (∀ c ∈ cs, c.isDigit = true ∨ c = ',') → 2 ≤ cs.count ',' →
      (∃ c ∈ cs, c.isDigit = true) →
      parseWithCommaSeparator (String.mk cs)
        = some ((digitsToNat (cs.filter (· != ',')) : ℚ))) ∧
    smartNumberDetection "1,234" = some 1234 ∧
    smartNumberDetection "3,5" = some ((7 : ℚ) / 2) := by
  refine ⟨?_, ?_, ?_, ?_, ?_⟩
  · intro a b ha hb h1 h2 h3
    unfold parseWithCommaSeparator
    show (if (a ++ ',' :: b).count ',' = 1 then _ else _) = _
    rw [if_pos (count_sep_one (by decide) ha hb)]
    rw [takeWhile_bne_sep (by decide) ha b, dropWhile_bne_sep_tail (by decide) ha b]
    rw [if_pos ⟨h2, h3⟩]
    exact jsParseFloatL_digits_dot ha hb (Or.inr (by intro h; rw [h] at h1; exact absurd h1 (by decide)))
  · intro a b ha hb h3
    unfold parseWithCommaSeparator
    show (if (a ++ ',' :: b).count ',' = 1 then _ else _) = _
    rw [if_pos (count_sep_one (by decide) ha hb)]
    rw [takeWhile_bne_sep (by decide) ha b, dropWhile_bne_sep_tail (by decide) ha b]
    rw [if_neg (by rw [h3]; intro hcon; exact absurd hcon.1 (by decide))]
    rw [if_pos h3]
    refine jsParseFloatL_digits (fun c hc => ?_) ?_
    · rcases List.mem_append.mp hc with h | h
      · exact ha c h
      · exact hb c h
    · intro hcon
      have : b.length = 0 := by rw [List.append_eq_nil] at hcon; rw [hcon.2]; rfl
      rw [h3] at this
      exact absurd this (by decide)
  · intro cs hcs h2 hdig
    unfold parseWithCommaSeparator
    show (if cs.count ',' = 1 then _ else _) = _
    rw [if_neg (by omega)]
    refine jsParseFloatL_digits (filter_bne_digits (by decide) hcs) ?_
    intro hcon
    obtain ⟨c, hcmem, hcd⟩ := hdig
    have : c ∈ cs.filter (· != ',') :=
      List.mem_filter.mpr ⟨hcmem, bne_of_isDigit hcd (by decide)⟩
    rw [hcon] at this
    exact absurd this (List.not_mem_nil c)
  · with_unfolding_all decide
  · with_unfolding_all decide

/-- Witness for C6, applying the decimal branch at `"3,5"` and the
thousands branch at `"1,234"`. -/
theorem comma_heuristic_witness :
    parseWithCommaSeparator (String.mk (['3'] ++ ',' :: ['5']))
        = some ((digitsToNat ['3'] : ℚ) + (digitsToNat ['5'] : ℚ) / 10 ^ (['5'] : List Char).length) ∧
      parseWithCommaSeparator (String.mk (['1'] ++ ',' :: ['2', '3', '4']))
        = some ((digitsToNat (['1'] ++ ['2', '3', '4']) : ℚ)) :=
  ⟨comma_heuristic.1 ['3'] ['5'] (by decide) (by decide) (by decide) (by decide) (by decide),
   comma_heuristic.2.1 ['1'] ['2', '3', '4'] (by decide) (by decide) (by decide)⟩

/- ---------------------------------------------------------------------
   C7 - dot heuristic
   --------------------------------------------------------------------- -/

theorem string_data_mk (l : List Char) : (String.mk l).data = l := rfl

theorem reverse_append_sep (p q : List Char) (sep : Char) :
    (p ++ sep :: q).reverse = q.reverse ++ sep :: p.reverse := by
  simp [List.reverse_append]

theorem count_sep_ne_one {sep : Char} {p q : List Char}
    (hp : sep ∈ p) (hq : ∀ c ∈ q, c ≠ sep) :
    ¬ (p ++ sep :: q).count sep = 1 := by
  rw [List.count_append, List.count_cons_self, count_eq_zero_of_all_ne hq]
  have : 0 < p.count sep := List.count_pos_iff.mpr hp
  omega

theorem smart_routes_dots {cs : List Char}
    (h : ∀ c ∈ cs, c.isDigit = true ∨ c = '.') (hc : '.' ∈ cs) :
    smartNumberDetection (String.mk cs) = parseWithDotSeparator (String.mk cs) := by
  unfold smartNumberDetection
  have hclean : (String.mk cs).data.filter
      (fun c => c.isDigit || c == '.' || c == ',' || c == '-') = cs := by
    rw [List.filter_eq_self]
    intro c hcc
    rcases h c hcc with hd | he
    · simp [hd]
    · simp [he]
  rw [hclean]
  have hany : cs.any (fun c => c == '.' || c == ',') = true :=
    List.any_eq_true.mpr ⟨'.', hc, by simp⟩
  rw [if_neg (by simp [hany])]
  have hcomma : cs.count ',' = 0 := by
    refine count_eq_zero_of_all_ne (fun d hd => ?_)
    rcases h d hd with h1 | h2
    · exact isDigit_ne_of h1 (by decide)
    · rw [h2]; decide
  have hdot : 0 < cs.count '.' := List.count_pos_iff.mpr hc
  rw [if_neg (by omega), if_pos ⟨hdot, hcomma⟩]


theorem parseWithDot_single_thousands {a b : List Char}
    (ha : ∀ c ∈ a, c.isDigit = true) (hb : ∀ c ∈ b, c.isDigit = true)
    (h3 : b.length = 3) :
    parseWithDotSeparator (String.mk (a ++ '.' :: b))
      = some ((digitsToNat (a ++ b) : ℚ)) := by
  unfold parseWithDotSeparator
  show (if (a ++ '.' :: b).count '.' = 1 then _ else _) = _
  rw [if_pos (count_sep_one (by decide) ha hb)]
  rw [takeWhile_bne_sep (by decide) ha b, dropWhile_bne_sep_tail (by decide) ha b]
  rw [if_neg (by rw [h3]; intro hcon; exact absurd hcon.1 (by decide))]
  rw [if_pos h3]
  refine jsParseFloatL_digits (fun c hc => ?_) ?_
  · rcases List.mem_append.mp hc with h | h
    · exact ha c h
    · exact hb c h
  · intro hcon
    have : b.length = 0 := by rw [List.append_eq_nil] at hcon; rw [hcon.2]; rfl
    rw [h3] at this
    exact absurd this (by decide)

theorem parseWithDot_single_decimal {a b : List Char}
    (ha : ∀ c ∈ a, c.isDigit = true) (hb : ∀ c ∈ b, c.isDigit = true)
    (h1 : 1 ≤ b.length) (h2 : b.length ≤ 2) :
    parseWithDotSeparator (String.mk (a ++ '.' :: b))
      = some ((digitsToNat a : ℚ) + (digitsToNat b : ℚ) / 10 ^ b.length) := by
  have hbne : b ≠ [] := by
    intro h; rw [h] at h1; exact absurd h1 (by decide)
  unfold parseWithDotSeparator
  show (if (a ++ '.' :: b).count '.' = 1 then _ else _) = _
  rw [if_pos (count_sep_one (by decide) ha hb)]
  rw [takeWhile_bne_sep (by decide) ha b, dropWhile_bne_sep_tail (by decide) ha b]
  by_cases hC : b.length ≤ 2 ∧ a.length ≤ 3
  · rw [if_pos hC]
    exact jsParseFloatL_digits_dot ha hb (Or.inr hbne)
  · rw [if_neg hC, if_neg (by omega)]
    exact jsParseFloatL_digits_dot ha hb (Or.inr hbne)

theorem parseWithDot_multi_decimal {p q : List Char}
    (hp : ∀ c ∈ p, c.isDigit = true ∨ c = '.') (hdotp : '.' ∈ p)
    (hq : ∀ c ∈ q, c.isDigit = true) (h1 : 1 ≤ q.length) (h2 : q.length ≤ 2) :
    parseWithDotSeparator (String.mk (p ++ '.' :: q))
      = some ((digitsToNat (p.filter (· != '.')) : ℚ) + (digitsToNat q : ℚ) / 10 ^ q.length) := by
  have hqne : q ≠ [] := by
    intro h; rw [h] at h1; exact absurd h1 (by decide)
  unfold parseWithDotSeparator
  show (if (p ++ '.' :: q).count '.' = 1 then _ else _) = _
  rw [if_neg (count_sep_ne_one hdotp (fun c hc => isDigit_ne_of (hq c hc) (by decide)))]
  simp only [string_data_mk, reverse_append_sep,
    takeWhile_bne_sep (show ('.' : Char).isDigit = false by decide)
      (fun c hc => hq c (List.mem_reverse.mp hc)) p.reverse,
    dropWhile_bne_sep_tail (show ('.' : Char).isDigit = false by decide)
      (fun c hc => hq c (List.mem_reverse.mp hc)) p.reverse,
    List.reverse_reverse, List.length_reverse]
  rw [if_pos h2]
  exact jsParseFloatL_digits_dot (filter_bne_digits (by decide) hp) hq (Or.inr hqne)

theorem parseWithDot_multi_drop {p q : List Char}
    (hp : ∀ c ∈ p, c.isDigit = true ∨ c = '.') (hdotp : '.' ∈ p)
    (hq : ∀ c ∈ q, c.isDigit = true) (h3 : 3 ≤ q.length) :
    parseWithDotSeparator (String.mk (p ++ '.' :: q))
      = some ((digitsToNat ((p ++ '.' :: q).filter (· != '.')) : ℚ)) := by
  unfold parseWithDotSeparator
  show (if (p ++ '.' :: q).count '.' = 1 then _ else _) = _
  rw [if_neg (count_sep_ne_one hdotp (fun c hc => isDigit_ne_of (hq c hc) (by decide)))]
  simp only [string_data_mk, reverse_append_sep,
    takeWhile_bne_sep (show ('.' : Char).isDigit = false by decide)
      (fun c hc => hq c (List.mem_reverse.mp hc)) p.reverse,
    List.reverse_reverse, List.length_reverse]
  rw [if_neg (by omega)]
  refine jsParseFloatL_digits
    (filter_bne_digits (by decide) (fun c hc => ?_)) ?_
  · rcases List.mem_append.mp hc with h | h
    · exact hp c h
    · rcases List.mem_cons.mp h with h | h
      · exact Or.inr h
      · exact Or.inl (hq c h)
  · intro hcon
    cases hq2 : q with
    | nil => rw [hq2] at h3; exact absurd h3 (by decide)
    | cons x xs =>
      have hx : x ∈ (p ++ '.' :: q).filter (· != '.') := by
        refine List.mem_filter.mpr ⟨?_, ?_⟩
        · exact List.mem_append.mpr (Or.inr (by rw [hq2]; simp))
        · exact bne_of_isDigit (hq x (by rw [hq2]; simp)) (by decide)
      rw [hcon] at hx
      exact absurd hx (List.not_mem_nil x)

/-- C7.  Under auto-detection, for dot-only inputs: a single dot followed by
exactly 3 digits is dropped as a thousands separator; a single dot followed
by 1-2 digits is a decimal point (whatever the length of the integer part);
with several dots (`p` containing a dot, split at the last dot before the
digit run `q`), the dots before the last are dropped and the last segment is
decimal when it has 1-2 digits, while a longer last segment makes every dot
a dropped grouping mark.  Auto-detection routes dot-only inputs to this
parser, and concretely `parse("1.234") = 1234`, `parse("3.5") = 3.5`,
`parse("1.234.56") = 1234.56`, `parse("1.234.567") = 1234567`. -/
theorem dot_heuristic :
    (∀ a b : List Char, (∀ c ∈ a, c.isDigit = true) → (∀ c ∈ b, c.isDigit = true) →
      b.length = 3 →
      parseWithDotSeparator (String.mk (a ++ '.' :: b))
        = some ((digitsToNat (a ++ b) : ℚ))) ∧
    (∀ a b : List Char, (∀ c ∈ a, c.isDigit = true) → (∀ c ∈ b, c.isDigit = true) →
      1 ≤ b.length → b.length ≤ 2 →
      parseWithDotSeparator (String.mk (a ++ '.' :: b))
        = some ((digitsToNat a : ℚ) + (digitsToNat b : ℚ) / 10 ^ b.length)) ∧
    (∀ p q : List Char, (∀ c ∈ p, c.isDigit = true ∨ c = '.') → '.' ∈ p →
      (∀ c ∈ q, c.isDigit = true) → 1 ≤ q.length → q.length ≤ 2 →
      parseWithDotSeparator (String.mk (p ++ '.' :: q))
        = some ((digitsToNat (p.filter (· != '.')) : ℚ) + (digitsToNat q : ℚ) / 10 ^ q.length)) ∧
    (∀ p q : List Char, (∀ c ∈ p, c.isDigit = true ∨ c = '.') → '.' ∈ p →
      (∀ c ∈ q, c.isDigit = true) → 3 ≤ q.length →
      parseWithDotSeparator (String.mk (p ++ '.' :: q))
        = some ((digitsToNat ((p ++ '.' :: q).filter (· != '.')) : ℚ))) ∧
    (∀ cs : List Char, (∀ c ∈ cs, c.isDigit = true ∨ c = '.') → '.' ∈ cs →
      smartNumberDetection (String.mk cs) = parseWithDotSeparator (String.mk cs)) ∧
    smartNumberDetection "1.234" = some 1234 ∧
    smartNumberDetection "3.5" = some ((7 : ℚ) / 2) ∧
    smartNumberDetection "1.234.56" = some ((1234.56 : ℚ)) ∧
    smartNumberDetection "1.234.567" = some 1234567 := by
  refine ⟨fun a b ha hb h3 => parseWithDot_single_thousands ha hb h3,
    fun a b ha hb h1 h2 => parseWithDot_single_decimal ha hb h1 h2,
    fun p q hp hd hq h1 h2 => parseWithDot_multi_decimal hp hd hq h1 h2,
    fun p q hp hd hq h3 => parseWithDot_multi_drop hp hd hq h3,
    fun cs h hc => smart_routes_dots h hc, ?_, ?_, ?_, ?_⟩
  · with_unfolding_all decide
  · with_unfolding_all decide
  · show smartNumberDetection (String.mk (['1', '.', '2', '3', '4'] ++ '.' :: ['5', '6']))
      = some ((1234.56 : ℚ))
    rw [smart_routes_dots (by decide) (by decide)]
    rw [parseWithDot_multi_decimal (by decide) (by decide) (by decide) (by decide) (by decide)]
    have hd1 : digitsToNat ((['1', '.', '2', '3', '4'] : List Char).filter (· != '.')) = 1234 := by
      decide
    have hd2 : digitsToNat ['5', '6'] = 56 := by decide
    rw [hd1, hd2]
    norm_num
  · show smartNumberDetection (String.mk (['1', '.', '2', '3', '4'] ++ '.' :: ['5', '6', '7']))
      = some 1234567
    rw [smart_routes_dots (by decide) (by decide)]
    rw [parseWithDot_multi_drop (by decide) (by decide) (by decide) (by decide)]
    have hd1 : digitsToNat (((['1', '.', '2', '3', '4'] : List Char) ++ '.' :: ['5', '6', '7']).filter
        (· != '.')) = 1234567 := by decide
    rw [hd1]
    norm_num

/-- Witness for C7, applying the thousands branch at `"1.234"` and the
decimal branch at `"3.5"`. -/
theorem dot_heuristic_witness :
    parseWithDotSeparator (String.mk (['1'] ++ '.' :: ['2', '3', '4']))
        = some ((digitsToNat (['1'] ++ ['2', '3', '4']) : ℚ)) ∧
      parseWithDotSeparator (String.mk (['3'] ++ '.' :: ['5']))
        = some ((digitsToNat ['3'] : ℚ) + (digitsToNat ['5'] : ℚ) / 10 ^ (['5'] : List Char).length) :=
  ⟨dot_heuristic.1 ['1'] ['2', '3', '4'] (by decide) (by decide) (by decide),
   dot_heuristic.2.1 ['3'] ['5'] (by decide) (by decide) (by decide) (by decide)⟩

/- ---------------------------------------------------------------------
   C8 - mixed separators
   --------------------------------------------------------------------- -/

theorem revIndexOf_append_cons {c : Char} {l : List Char} (h : ∀ d ∈ l, d ≠ c)
    (t : List Char) : revIndexOf c (l ++ c :: t) = l.length := by
  induction l with
  | nil => simp [revIndexOf]
  | cons x xs ih =>
    have hx : x ≠ c := h x (by simp)
    simp [revIndexOf, hx, ih (fun d hd => h d (by simp [hd]))]

theorem revIndexOf_append_not_mem {c : Char} {l : List Char} (h : ∀ d ∈ l, d ≠ c)
    (t : List Char) : revIndexOf c (l ++ t) = l.length + revIndexOf c t := by
  induction l with
  | nil => simp [revIndexOf]
  | cons x xs ih =>
    have hx : x ≠ c := h x (by simp)
    have ih2 := ih (fun d hd => h d (by simp [hd]))
    simp only [List.cons_append, revIndexOf, if_neg hx, List.length_cons, List.append_eq]
    omega

theorem revIndexOf_lt_length {c : Char} {l : List Char} (h : c ∈ l) :
    revIndexOf c l < l.length := by
  induction l with
  | nil => cases h
  | cons x xs ih =>
    by_cases hx : x = c
    · simp [revIndexOf, hx]
    · have hm : c ∈ xs := by
        rcases List.mem_cons.mp h with h1 | h2
        · exact absurd h1.symm hx
        · exact h2
      have := ih hm
      simp only [revIndexOf, if_neg hx, List.length_cons]
      omega

theorem drop_append_len_succ (p : List Char) (c : Char) (t : List Char) :
    (p ++ c :: t).drop (p.length + 1) = t := by
  induction p with
  | nil => rfl
  | cons x xs ih => simp [ih]

theorem lastIndexOfZ_append_cons {sep : Char} {p q : List Char}
    (hq : ∀ d ∈ q, d ≠ sep) :
    lastIndexOfZ sep (p ++ sep :: q) = (p.length : ℤ) := by
  unfold lastIndexOfZ
  rw [reverse_append_sep]
  rw [revIndexOf_append_cons (fun d hd => hq d (List.mem_reverse.mp hd)) p.reverse]
  simp only [List.length_append, List.length_cons, List.length_reverse]
  push_cast
  omega

theorem lastIndexOfZ_other_lt {sep other : Char} (hne : sep ≠ other) {p q : List Char}
    (hother : other ∈ p) (hq : ∀ d ∈ q, d ≠ other) :
    lastIndexOfZ other (p ++ sep :: q) < (p.length : ℤ) := by
  unfold lastIndexOfZ
  rw [reverse_append_sep]
  have h1 : revIndexOf other (q.reverse ++ sep :: p.reverse)
      = q.reverse.length + revIndexOf other (sep :: p.reverse) :=
    revIndexOf_append_not_mem (fun d hd => hq d (List.mem_reverse.mp hd)) _
  have h2 : revIndexOf other (sep :: p.reverse) = revIndexOf other p.reverse + 1 := by
    simp [revIndexOf, hne]
  have h3 : revIndexOf other p.reverse < p.length := by
    have := revIndexOf_lt_length (List.mem_reverse.mpr hother)
    simpa using this
  rw [h1, h2]
  simp only [List.length_append, List.length_cons, List.length_reverse]
  push_cast
  omega

theorem parseWithMixed_comma_decimal {p q : List Char}
    (hp : ∀ c ∈ p, c.isDigit = true ∨ c = '.') (hdotp : '.' ∈ p)
    (hq : ∀ c ∈ q, c.isDigit = true)
    (hne : p.filter (· != '.') ≠ [] ∨ q ≠ []) :
    parseWithMixedSeparators (String.mk (p ++ ',' :: q))
      = some ((digitsToNat (p.filter (· != '.')) : ℚ)
          + (digitsToNat q : ℚ) / 10 ^ q.length) := by
  have hlc : lastIndexOfZ ',' (p ++ ',' :: q) = (p.length : ℤ) :=
    lastIndexOfZ_append_cons (fun d hd => isDigit_ne_of (hq d hd) (by decide))
  have hld : lastIndexOfZ '.' (p ++ ',' :: q) < (p.length : ℤ) :=
    lastIndexOfZ_other_lt (by decide) hdotp (fun d hd => isDigit_ne_of (hq d hd) (by decide))
  unfold parseWithMixedSeparators
  simp only [string_data_mk, hlc]
  rw [if_pos hld]
  simp only [Int.toNat_natCast, take_append_len, drop_append_len_succ]
  exact jsParseFloatL_digits_dot (filter_bne_digits (by decide) hp) hq hne

theorem parseWithMixed_dot_decimal {p q : List Char}
    (hp : ∀ c ∈ p, c.isDigit = true ∨ c = ',') (hcommap : ',' ∈ p)
    (hq : ∀ c ∈ q, c.isDigit = true)
    (hne : p.filter (· != ',') ≠ [] ∨ q ≠ []) :
    parseWithMixedSeparators (String.mk (p ++ '.' :: q))
      = some ((digitsToNat (p.filter (· != ',')) : ℚ)
          + (digitsToNat q : ℚ) / 10 ^ q.length) := by
  have hld : lastIndexOfZ '.' (p ++ '.' :: q) = (p.length : ℤ) :=
    lastIndexOfZ_append_cons (fun d hd => isDigit_ne_of (hq d hd) (by decide))
  have hlc : lastIndexOfZ ',' (p ++ '.' :: q) < (p.length : ℤ) :=
    lastIndexOfZ_other_lt (by decide) hcommap (fun d hd => isDigit_ne_of (hq d hd) (by decide))
  unfold parseWithMixedSeparators
  simp only [string_data_mk, hld]
  rw [if_neg (not_lt.mpr (le_of_lt hlc))]
  simp only [Int.toNat_natCast, take_append_len, drop_append_len_succ]
  exact jsParseFloatL_digits_dot (filter_bne_digits (by decide) hp) hq hne

theorem smart_routes_mixed {cs : List Char}
    (h : ∀ c ∈ cs, c.isDigit = true ∨ c = ',' ∨ c = '.')
    (hc : ',' ∈ cs) (hd : '.' ∈ cs) :
    smartNumberDetection (String.mk cs) = parseWithMixedSeparators (String.mk cs) := by
  unfold smartNumberDetection
  have hclean : (String.mk cs).data.filter
      (fun c => c.isDigit || c == '.' || c == ',' || c == '-') = cs := by
    rw [List.filter_eq_self]
    intro c hcc
    rcases h c hcc with h1 | h2 | h3
    · simp [h1]
    · simp [h2]
    · simp [h3]
  rw [hclean]
  have hany : cs.any (fun c => c == '.' || c == ',') = true :=
    List.any_eq_true.mpr ⟨',', hc, by simp⟩
  rw [if_neg (by simp [hany])]
  have hcomma : 0 < cs.count ',' := List.count_pos_iff.mpr hc
  have hdot : 0 < cs.count '.' := List.count_pos_iff.mpr hd
  rw [if_neg (by omega), if_neg (by omega), if_pos ⟨hcomma, hdot⟩]

/-- C8.  Under auto-detection, for inputs containing both separators, the
one occurring last in the string (at the split `p ++ sep :: q` with `q`
digit-only and the other separator inside `p`) is taken as the decimal
separator and every occurrence of the other separator is dropped as a
grouping mark before reparsing; auto-detection routes such inputs to the
mixed parser, and concretely `parse("1.234,56") = 1234.56` and
`parse("1,234.56") = 1234.56`. -/
theorem mixed_separator_heuristic :
    (∀ p q : List Char, (∀ c ∈ p, c.isDigit = true ∨ c = '.') → '.' ∈ p →
      (∀ c ∈ q, c.isDigit = true) → q ≠ [] →
      parseWithMixedSeparators (String.mk (p ++ ',' :: q))
        = some ((digitsToNat (p.filter (· != '.')) : ℚ)
            + (digitsToNat q : ℚ) / 10 ^ q.length)) ∧
    (∀ p q : List Char, (∀ c ∈ p, c.isDigit = true ∨ c = ',') → ',' ∈ p →
      (∀ c ∈ q, c.isDigit = true) → q ≠ [] →
      parseWithMixedSeparators (String.mk (p ++ '.' :: q))
        = some ((digitsToNat (p.filter (· != ',')) : ℚ)
            + (digitsToNat q : ℚ) / 10 ^ q.length)) ∧
    (∀ cs : List Char, (∀ c ∈ cs, c.isDigit = true ∨ c = ',' ∨ c = '.') →
      ',' ∈ cs → '.' ∈ cs →
      smartNumberDetection (String.mk cs) = parseWithMixedSeparators (String.mk cs)) ∧
    smartNumberDetection "1.234,56" = some ((1234.56 : ℚ)) ∧
    smartNumberDetection "1,234.56" = some ((1234.56 : ℚ)) := by
  refine ⟨fun p q hp hd hq hne => parseWithMixed_comma_decimal hp hd hq (Or.inr hne),
    fun p q hp hc hq hne => parseWithMixed_dot_decimal hp hc hq (Or.inr hne),
    fun cs h hc hd => smart_routes_mixed h hc hd, ?_, ?_⟩
  · show smartNumberDetection (String.mk (['1', '.', '2', '3', '4'] ++ ',' :: ['5', '6']))
      = some ((1234.56 : ℚ))
    rw [smart_routes_mixed (by decide) (by decide) (by decide)]
    rw [parseWithMixed_comma_decimal (by decide) (by decide) (by decide) (Or.inr (by decide))]
    have hd1 : digitsToNat ((['1', '.', '2', '3', '4'] : List Char).filter (· != '.')) = 1234 := by
      decide
    have hd2 : digitsToNat ['5', '6'] = 56 := by decide
    rw [hd1, hd2]
    norm_num
  · show smartNumberDetection (String.mk (['1', ',', '2', '3', '4'] ++ '.' :: ['5', '6']))
      = some ((1234.56 : ℚ))
    rw [smart_routes_mixed (by decide) (by decide) (by decide)]
    rw [parseWithMixed_dot_decimal (by decide) (by decide) (by decide) (Or.inr (by decide))]
    have hd1 : digitsToNat ((['1', ',', '2', '3', '4'] : List Char).filter (· != ',')) = 1234 := by
      decide
    have hd2 : digitsToNat ['5', '6'] = 56 := by decide
    rw [hd1, hd2]
    norm_num

/-- Witness for C8, applying the comma-decimal branch at `"1.234,56"`. -/
theorem mixed_separator_heuristic_witness :
    parseWithMixedSeparators (String.mk (['1', '.', '2', '3', '4'] ++ ',' :: ['5', '6']))
      = some ((digitsToNat ((['1', '.', '2', '3', '4'] : List Char).filter (· != '.')) : ℚ)
          + (digitsToNat ['5', '6'] : ℚ) / 10 ^ (['5', '6'] : List Char).length) :=
  mixed_separator_heuristic.1 ['1', '.', '2', '3', '4'] ['5', '6']
    (by decide) (by decide) (by decide) (by decide)

/-- Witness for C10 at value `5` under the `pt-ao` preset with
`showDecimals` forced on: the rendering is the bare `"5"` with a dangling
comma, i.e. `"5,"`. -/
theorem showDecimals_zero_dangling_separator_witness :
    formatCustomNumber 5 { ptAoPreset with showDecimals := true }
        = formatCustomNumber 5
            { { ptAoPreset with showDecimals := true } with showDecimals := false }
            ++ ({ ptAoPreset with showDecimals := true } : NumberFormat).decimalSeparator ∧
      formatCustomNumber 5 { ptAoPreset with showDecimals := true } = "5," :=
  ⟨showDecimals_zero_dangling_separator 5 { ptAoPreset with showDecimals := true } rfl rfl,
   by with_unfolding_all decide⟩
